import Mathlib

/-!
Verification of the `durago` ISO-8601 duration package (`duration.go`).

The Go code is shallowly embedded: `time.Duration` (a 64-bit signed
nanosecond count) becomes `Int` together with explicit wrap-around
arithmetic modulo 2^64, `float64` values become exact rationals (`ℚ`)
carrying the exact real value of the corresponding Go computation, and
fallible operations return `Except String`.
-/

namespace Durago

set_option allowUnsafeReducibility true in
attribute [semireducible] Rat.mul Rat.add Rat.sub Rat.inv Rat.ofScientific

/-- Nanoseconds per second (`nsPerSecond = 1000 * nsPerMillisecond`). -/
def nsPerSecond : Int := 1000000000

/-- Nanoseconds per minute (`nsPerMinute = nsPerSecond * 60`). -/
def nsPerMinute : Int := 60000000000

/-- Nanoseconds per hour (`nsPerHour = nsPerMinute * 60`). -/
def nsPerHour : Int := 3600000000000

/-- Nanoseconds per day (`periodDay = nsPerHour * 24`). -/
def periodDay : Int := 86400000000000

/-- Nanoseconds per week (`periodWeek = periodDay * 7`). -/
def periodWeek : Int := 604800000000000

/-- Nanoseconds per year (`periodYear = periodDay * 365`). -/
def periodYear : Int := 31536000000000000

/-- Nanoseconds per month (`periodMonth = periodYear / 12`). -/
def periodMonth : Int := 2628000000000000

/-- The fixed literal `zeroDuration` returned by `String` for a zero value. -/
def zeroDuration : String := "PT0S"

/-- Two's-complement wrap-around into the int64 range, the semantics of Go's
64-bit signed integer arithmetic on overflow. -/
def wrap64 (z : Int) : Int := (z + 2 ^ 63) % 2 ^ 64 - 2 ^ 63

/-- Go int64 addition (`+` with wrap-around). -/
def i64add (a b : Int) : Int := wrap64 (a + b)

/-- Go int64 multiplication (`*` with wrap-around). -/
def i64mul (a b : Int) : Int := wrap64 (a * b)

/-- Go int64 negation (`-x` with wrap-around; `-MinInt64` wraps to `MinInt64`). -/
def i64neg (a : Int) : Int := wrap64 (-a)

/-- Truncation of a rational toward zero, the semantics of Go's conversion
from a floating-point value to an integer type (for in-range values): the
numerator/denominator pair of a `Rat` is fully reduced with a positive
denominator, so truncated integer division of the two is exact truncation. -/
def truncQ (q : ℚ) : Int := Int.tdiv q.num q.den

/-- Floor of a rational (computable; the denominator is positive, so
floor division of numerator by denominator is the floor). -/
def floorQ (q : ℚ) : Int := Int.fdiv q.num q.den

/-- Exact value of Go's `time.Duration.Seconds()`, which computes
`float64(d / 1e9) + float64(d % 1e9) / 1e9` using truncated integer
division; the exact real value of that expression is `d / 1e9`. -/
def goSeconds (d : Int) : ℚ := (d : ℚ) / 1000000000

/-- One greedy subtraction loop of `FromTimeDuration`
(`for d >= unit { count++; d -= unit }`), returning the count and the
remainder.  For `d ≥ unit > 0` the loop leaves exactly `d % unit` after
`d / unit` iterations; otherwise it does not run at all. -/
def chomp (d unit : Int) : Int × Int :=
  if unit ≤ d then (Int.ediv d unit, Int.emod d unit) else (0, d)

/-- Decimal value of a list of ASCII digits. -/
def natVal (ds : List Char) : Nat :=
  ds.foldl (fun a c => a * 10 + (c.toNat - 48)) 0

/-- `strconv.ParseInt(s, 10, 64)`: optional sign, then a non-empty run of
ASCII decimal digits, with the int64 range check; failures carry Go's
`NumError` message.  (Go's scanner in `ParseDuration` can also feed
non-ASCII Unicode numerics into the buffer via `unicode.IsNumber`; those
always make `ParseInt` fail with `invalid syntax`, which this model reports
for any non-digit character.) -/
def parseInt64 (s : List Char) : Except String Int :=
  let syntaxErr : String :=
    "strconv.ParseInt: parsing \"" ++ String.mk s ++ "\": invalid syntax"
  let rangeErr : String :=
    "strconv.ParseInt: parsing \"" ++ String.mk s ++ "\": value out of range"
  let neg : Bool := s.head? == some '-'
  let ds : List Char :=
    if s.head? = some '+' ∨ s.head? = some '-' then s.tail else s
  if ds = [] then .error syntaxErr
  else if ds.all (fun c => c.isDigit) then
    let v : Nat := natVal ds
    if neg = true then
      if v ≤ 2 ^ 63 then .ok (-(v : Int)) else .error rangeErr
    else
      if v ≤ 2 ^ 63 - 1 then .ok (v : Int) else .error rangeErr
  else .error syntaxErr

/-- `strconv.ParseFloat(s, 64)` restricted to the shapes the scanner can
produce (sign, digits, at most one `.`): accepts `d+`, `d+.d*`, `.d+` and
returns the exact rational value.  Go rounds this value to the nearest
`float64` (and fails with a range error above the float64 range); the
claims below depend only on facts (sign, smallness) preserved by that
rounding, so the exact value is used. -/
def parseFloatQ (s : List Char) : Except String ℚ :=
  let syntaxErr : String :=
    "strconv.ParseFloat: parsing \"" ++ String.mk s ++ "\": invalid syntax"
  let neg : Bool := s.head? == some '-'
  let body : List Char :=
    if s.head? = some '+' ∨ s.head? = some '-' then s.tail else s
  let ip : List Char := body.takeWhile (fun c => c != '.')
  let rest : List Char := body.dropWhile (fun c => c != '.')
  match rest with
  | [] =>
    if ip ≠ [] ∧ ip.all (fun c => c.isDigit) then
      let q : ℚ := (natVal ip : ℚ)
      .ok (if neg = true then -q else q)
    else .error syntaxErr
  | _ :: frac =>
    if ('.' ∉ frac) ∧ (ip ++ frac).all (fun c => c.isDigit) ∧ ip ++ frac ≠ [] then
      let q : ℚ := (natVal ip : ℚ) + (natVal frac : ℚ) / (10 : ℚ) ^ frac.length
      .ok (if neg = true then -q else q)
    else .error syntaxErr

/-- The `Duration` struct: cached nanosecond magnitude `d` (Go
`time.Duration`), the sign flag, and the per-unit components
(`seconds` is Go `float64`, modelled by its exact rational value). -/
structure Duration where
  d : Int := 0
  negative : Bool := false
  years : Int := 0
  months : Int := 0
  weeks : Int := 0
  days : Int := 0
  hours : Int := 0
  minutes : Int := 0
  seconds : ℚ := 0
  deriving Repr, DecidableEq

/-- The `parsedParts` slice of once-only flags, one per field, in the
order of the Go literal: sign, duration (`P`), year, month, week, day,
time (`T`), hour, minute, second. -/
structure ParsedParts where
  sign : Bool := false
  p : Bool := false
  year : Bool := false
  month : Bool := false
  week : Bool := false
  day : Bool := false
  t : Bool := false
  hour : Bool := false
  minute : Bool := false
  second : Bool := false
  deriving Repr, DecidableEq

/-- The two-valued scan mode: `stateParsePeriod` / `stateParseTime`. -/
inductive ParseState where
  | period
  | time
  deriving Repr, DecidableEq

/-- Outcome of processing one character of the scan: an error, immediate
success (the `S` branch returns from inside the loop), or the next scan
state. -/
inductive Step where
  | err (msg : String)
  | done (d : Duration)
  | next (parts : ParsedParts) (st : ParseState) (dur : Duration) (num : List Char)

/-- One iteration of the `for _, char := range d` switch in
`ParseDuration`: a faithful branch-by-branch translation of the Go
`switch char` statement. -/
def procChar (parts : ParsedParts) (st : ParseState) (dur : Duration)
    (num : List Char) (c : Char) : Step :=
  if c = '+' then
    if st ≠ ParseState.period ∨ parts.sign then
      .err "invalid format: unexpected positive sign"
    else
      .next { parts with sign := true } st dur num
  else if c = '-' then
    if st ≠ ParseState.period ∨ parts.sign then
      .err "invalid format: unexpected negative sign"
    else
      .next { parts with sign := true } st { dur with negative := true } num
  else if c = 'P' then
    if st ≠ ParseState.period ∨ parts.p then
      .err "invalid format: unexpected duration designator"
    else
      .next { parts with p := true } st dur num
  else if c = 'Y' then
    if st ≠ ParseState.period ∨ parts.year then
      .err "invalid format: unexpected year designator"
    else
      match parseInt64 num with
      | .error e => .err ("year parse failed: " ++ e)
      | .ok years =>
        .next { parts with year := true } st
          { dur with d := i64add dur.d (i64mul years periodYear), years := years } []
  else if c = 'M' then
    if st = ParseState.period then
      if parts.month then
        .err "invalid format: unexpected month designator"
      else
        match parseInt64 num with
        | .error e => .err ("month parse failed: " ++ e)
        | .ok months =>
          .next { parts with month := true } st
            { dur with d := i64add dur.d (i64mul months periodMonth), months := months } []
    else
      if parts.minute then
        .err "invalid format: unexpected minute designator"
      else
        match parseInt64 num with
        | .error e => .err ("month parse failed: " ++ e)
        | .ok minutes =>
          .next { parts with minute := true } st
            { dur with d := i64add dur.d (i64mul minutes nsPerMinute), minutes := minutes } []
  else if c = 'W' then
    if st ≠ ParseState.period ∨ parts.week then
      .err "invalid format: unexpected week designator"
    else
      match parseInt64 num with
      | .error e => .err ("week parse failed: " ++ e)
      | .ok weeks =>
        .next { parts with week := true } st
          { dur with d := i64add dur.d (i64mul weeks periodWeek), weeks := weeks } []
  else if c = 'D' then
    if st ≠ ParseState.period ∨ parts.day then
      .err "invalid format: unexpected day designator"
    else
      match parseInt64 num with
      | .error e => .err ("day parse failed: " ++ e)
      | .ok days =>
        .next { parts with day := true } st
          { dur with d := i64add dur.d (i64mul days periodDay), days := days } []
  else if c = 'T' then
    if st ≠ ParseState.period ∨ parts.t then
      .err "invalid format: unexpected time designator"
    else
      .next { parts with t := true } ParseState.time dur num
  else if c = 'H' then
    if st ≠ ParseState.time ∨ parts.hour then
      .err "invalid format: unexpected hour designator"
    else
      match parseInt64 num with
      | .error e => .err ("hour parse failed: " ++ e)
      | .ok hours =>
        .next { parts with hour := true } st
          { dur with d := i64add dur.d (i64mul hours nsPerHour), hours := hours } []
  else if c = 'S' then
    if st ≠ ParseState.time ∨ parts.second then
      .err "invalid format: unexpected second designator"
    else
      match parseFloatQ num with
      | .error e => .err ("second parse failed: " ++ e)
      | .ok seconds =>
        .done { dur with d := i64add dur.d (truncQ (seconds * (nsPerSecond : ℚ))),
                         seconds := seconds }
  else if c.isDigit ∨ c = '.' then
    .next parts st dur (num ++ [c])
  else
    .err "invalid format: unexpected value or designator"

/-- The scan loop of `ParseDuration` over the remaining input.  The `Bool`
in a successful result records whether the loop returned early from the
`S` branch (`true`) or ran off the end of the input (`false`); Go's
control flow distinguishes the two by `return` versus falling through to
the trailing-buffer check. -/
def runParse (parts : ParsedParts) (st : ParseState) (dur : Duration)
    (num : List Char) : List Char → Except String (Duration × Bool)
  | [] =>
    if num = [] then .ok (dur, false)
    else .error "invalid format: missing designator"
  | c :: rest =>
    match procChar parts st dur num c with
    | .err m => .error m
    | .done r => .ok (r, true)
    | .next p s d n => runParse p s d n rest

/-- The all-false initial `parsedParts`. -/
def initParts : ParsedParts := {}

/-- `ParseDuration`: scan the string from the initial state and drop the
early-return indicator. -/
def parseDuration (s : String) : Except String Duration :=
  (runParse initParts ParseState.period {} [] s.data).map Prod.fst

/-- `GetTimeDuration`: the cached nanosecond count, negated (with int64
wrap-around) when the sign flag is set. -/
def GetTimeDuration (dur : Duration) : Int :=
  if dur.negative then i64neg dur.d else dur.d

/-- `FromTimeDuration`: extract the sign, cache the magnitude in `d`, then
greedily decompose into components largest unit first; the sub-minute
remainder becomes the fractional `seconds`. -/
def FromTimeDuration (n : Int) : Duration :=
  if n = 0 then {}
  else
    let neg : Bool := decide (n < 0)
    let m : Int := if n < 0 then i64neg n else n
    let c1 := chomp m periodYear
    let c2 := chomp c1.2 periodMonth
    let c3 := chomp c2.2 periodWeek
    let c4 := chomp c3.2 periodDay
    let c5 := chomp c4.2 nsPerHour
    let c6 := chomp c5.2 nsPerMinute
    { d := m, negative := neg, years := c1.1, months := c2.1, weeks := c3.1,
      days := c4.1, hours := c5.1, minutes := c6.1, seconds := goSeconds c6.2 }

/-- Decimal digits of `n` left-padded semantics of repeated division;
helper for the decimal formatter. -/
def natDigits : Nat → List Char
  | 0 => []
  | n + 1 =>
    natDigits ((n + 1) / 10) ++ [Char.ofNat (48 + (n + 1) % 10)]

/-- Fractional decimal digits of `q` (with `0 ≤ q < 1`) up to `fuel`
places, stopping when the remainder is exhausted. -/
def fracDigits (fuel : Nat) (q : ℚ) : List Char :=
  match fuel with
  | 0 => []
  | f + 1 =>
    if q = 0 then []
    else
      let d : Int := floorQ (q * 10)
      Char.ofNat (48 + d.toNat) :: fracDigits f (q * 10 - d)

/-- Stand-in for `strconv.FormatFloat(x, 'f', -1, 64)` on the exact
rational value: shortest decimal form, no trailing zeros, no decimal
point for integral values.  (Go formats the nearest `float64`; every
seconds value reaching this formatter in the claims below has a short
exact decimal expansion on which the two agree.) -/
def formatSecondsQ (q : ℚ) : String :=
  let sign : String := if q < 0 then "-" else ""
  let a : ℚ := if q < 0 then -q else q
  let ipart : Nat := (floorQ a).toNat
  let ds : List Char := if ipart = 0 then ['0'] else natDigits ipart
  let fs : List Char := fracDigits 40 (a - floorQ a)
  if fs = [] then sign ++ String.mk ds
  else sign ++ String.mk ds ++ "." ++ String.mk fs

/-- `strconv.Itoa` on an int64 component. -/
def itoa (n : Int) : String := toString n

/-- `String`: the ISO-8601 formatter.  A zero `d` yields the fixed
`PT0S` literal; otherwise the non-zero components are emitted in the
fixed order with `T` inserted once before the first non-zero time
field. -/
def durString (dur : Duration) : String :=
  if dur.d = 0 then zeroDuration
  else
    let b0 : String := (if dur.negative then "-" else "") ++ "P"
    let b1 : String := b0 ++ (if dur.years ≠ 0 then itoa dur.years ++ "Y" else "")
    let b2 : String := b1 ++ (if dur.months ≠ 0 then itoa dur.months ++ "M" else "")
    let b3 : String := b2 ++ (if dur.weeks ≠ 0 then itoa dur.weeks ++ "W" else "")
    let b4 : String := b3 ++ (if dur.days ≠ 0 then itoa dur.days ++ "D" else "")
    let b5 : String := b4 ++ (if dur.hours ≠ 0 then "T" ++ itoa dur.hours ++ "H" else "")
    let hasTime1 : Bool := dur.hours ≠ 0
    let b6 : String := b5 ++
      (if dur.minutes ≠ 0 then
        (if hasTime1 then "" else "T") ++ itoa dur.minutes ++ "M"
      else "")
    let hasTime2 : Bool := dur.hours ≠ 0 ∨ dur.minutes ≠ 0
    let b7 : String := b6 ++
      (if dur.seconds ≠ 0 then
        (if hasTime2 then "" else "T") ++ formatSecondsQ dur.seconds ++ "S"
      else "")
    b7

/-- `UnmarshalJSON`, with the outer `json.Unmarshal` string-decoding step
abstracted as a parameter `dec` (it is Go standard-library code, external
to this repository).  Go mutates the receiver in place only on the final
line; the functional model returns the new receiver value together with
the error, keeping the old receiver on every failure path. -/
def unmarshalJSON (dec : String → Except String String) (recv : Duration)
    (source : String) : Duration × Option String :=
  match dec source with
  | .error e => (recv, some e)
  | .ok s =>
    match parseDuration s with
    | .error e => (recv, some e)
    | .ok parsed => (parsed, none)

/-- Is the character one of the sign tokens `+`/`-`? -/
def isSign (c : Char) : Bool := c == '+' || c == '-'

/-- Is the character one of the period-side structural/field designators
`P`, `Y`, `W`, `D`? -/
def isPeriodDesignator (c : Char) : Bool :=
  c == 'P' || c == 'Y' || c == 'W' || c == 'D'

/-- All unit components of a `Duration` are non-negative (the sign lives
solely in `negative`). -/
def compsNonneg (dur : Duration) : Prop :=
  0 ≤ dur.years ∧ 0 ≤ dur.months ∧ 0 ≤ dur.weeks ∧ 0 ≤ dur.days ∧
    0 ≤ dur.hours ∧ 0 ≤ dur.minutes ∧ 0 ≤ dur.seconds

/-- The scan buffer only ever holds digit characters and dots. -/
def bufOK (num : List Char) : Prop :=
  ∀ x ∈ num, x.isDigit = true ∨ x = '.'

/-- `wrap64` is the identity on the int64 range. -/
theorem wrap64_eq_self {z : Int} (h1 : -(2 ^ 63) ≤ z) (h2 : z < 2 ^ 63) :
    wrap64 z = z := by
  unfold wrap64
  have hlo : (0 : Int) ≤ z + 2 ^ 63 := by linarith
  have hhi : z + 2 ^ 63 < 2 ^ 64 := by norm_num at h2 ⊢; linarith
  rw [Int.emod_eq_of_lt hlo hhi]
  ring

/-- Go int64 negation is an involution on the int64 range. -/
theorem i64neg_i64neg {n : Int} (h1 : -(2 ^ 63) ≤ n) (h2 : n < 2 ^ 63) :
    i64neg (i64neg n) = n := by
  rcases eq_or_lt_of_le h1 with he | hlt
  · rw [← he]; decide
  · have e1 : i64neg n = -n := by
      unfold i64neg
      exact wrap64_eq_self (by linarith) (by linarith)
    rw [e1]
    unfold i64neg
    rw [neg_neg]
    exact wrap64_eq_self h1 h2

theorem FromTimeDuration_d {n : Int} (h : n ≠ 0) :
    (FromTimeDuration n).d = if n < 0 then i64neg n else n := by
  simp [FromTimeDuration, h]

theorem FromTimeDuration_negative {n : Int} (h : n ≠ 0) :
    (FromTimeDuration n).negative = decide (n < 0) := by
  simp [FromTimeDuration, h]

/-- Claim C10: for every int64 nanosecond value `n`, including the most
negative one, `GetTimeDuration (FromTimeDuration n) = n`: the input
magnitude is cached directly in the `d` field and only the wrap-around
negation is applied on the way out. -/
theorem c10_conversion_identity (n : Int) (h1 : -(2 ^ 63) ≤ n) (h2 : n < 2 ^ 63) :
    GetTimeDuration (FromTimeDuration n) = n := by
  by_cases h0 : n = 0
  · subst h0; rfl
  · unfold GetTimeDuration
    rw [FromTimeDuration_d h0, FromTimeDuration_negative h0]
    by_cases hneg : n < 0
    · simp [hneg, i64neg_i64neg h1 h2]
    · simp [hneg]

/-- Witness for C10 at the most negative int64 value. -/
theorem c10_conversion_identity_witness :
    (-(2 ^ 63) ≤ (-(2 ^ 63) : Int) ∧ (-(2 ^ 63) : Int) < 2 ^ 63) ∧
      GetTimeDuration (FromTimeDuration (-(2 ^ 63))) = -(2 ^ 63) :=
  ⟨⟨le_refl _, by norm_num⟩, c10_conversion_identity _ (le_refl _) (by norm_num)⟩

/-- Claim C3 evaluation at inputs with no `P` designator: the code accepts
the empty string (yielding the zero Duration) and `"T1H"` (yielding one
hour); the `P` token is never required by the scanner, contradicting the
specified grammar. -/
theorem c3_no_P_accepted :
    parseDuration "" = .ok {} ∧
      parseDuration "T1H" = .ok { d := 3600000000000, hours := 1 } :=
  ⟨rfl, rfl⟩

/-- Claim C8: `P1M` parses as one month, `(365*24*3600*10^9)/12`
nanoseconds, while `PT1M` parses as one minute, `60*10^9` nanoseconds,
and the two results differ. -/
theorem c8_mode_sensitive_M :
    (parseDuration "P1M").map GetTimeDuration =
        .ok ((365 * 24 * 3600 * 10 ^ 9) / 12) ∧
      (parseDuration "PT1M").map GetTimeDuration = .ok (60 * 10 ^ 9) ∧
      ((365 * 24 * 3600 * 10 ^ 9) / 12 : Int) ≠ 60 * 10 ^ 9 :=
  ⟨rfl, rfl, by norm_num⟩

/-- Counterexample to claim C6: `FromTimeDuration math.MinInt64` has a
negative `seconds` component, because negating the most negative int64
wraps back to itself, the greedy loops are skipped on the negative
remainder, and `Seconds()` of that remainder is negative. -/
theorem c6_minint_seconds_neg :
    (FromTimeDuration (-(2 ^ 63))).seconds < 0 := by
  have h : (FromTimeDuration (-(2 ^ 63))).seconds =
      goSeconds (-(2 ^ 63)) := by rfl
  rw [h]
  unfold goSeconds
  norm_num

/-- Claim C7: any `Duration` whose cached nanosecond count `d` is zero,
whatever its other fields, formats as the fixed literal `PT0S`. -/
theorem c7_canonical_zero (dur : Duration) (h : dur.d = 0) :
    durString dur = "PT0S" := by
  simp [durString, h, zeroDuration]

/-- Witness for C7 at `FromTimeDuration 0`. -/
theorem c7_canonical_zero_witness :
    (FromTimeDuration 0).d = 0 ∧ durString (FromTimeDuration 0) = "PT0S" :=
  ⟨rfl, c7_canonical_zero _ rfl⟩

/-- Claim C9: whenever `UnmarshalJSON` reports an error — from the outer
JSON string decoding or from the inner `ParseDuration` — the receiver is
returned unchanged; it is replaced only when both steps succeed. -/
theorem c9_unmarshal_atomic (dec : String → Except String String)
    (recv : Duration) (source : String)
    (h : (unmarshalJSON dec recv source).2.isSome = true) :
    (unmarshalJSON dec recv source).1 = recv := by
  cases hdec : dec source with
  | error e =>
    have e1 : unmarshalJSON dec recv source = (recv, some e) := by
      unfold unmarshalJSON
      simp only [hdec]
    rw [e1]
  | ok s =>
    cases hp : parseDuration s with
    | error e =>
      have e1 : unmarshalJSON dec recv source = (recv, some e) := by
        unfold unmarshalJSON
        simp only [hdec, hp]
      rw [e1]
    | ok parsed =>
      have e1 : unmarshalJSON dec recv source = (parsed, none) := by
        unfold unmarshalJSON
        simp only [hdec, hp]
      rw [e1] at h
      simp at h

/-- Witness for C9 with a failing outer decoder. -/
theorem c9_unmarshal_atomic_witness :
    (unmarshalJSON (fun _ => .error "boom") {} "x").2.isSome = true ∧
      (unmarshalJSON (fun _ => .error "boom") {} "x").1 = {} :=
  ⟨rfl, c9_unmarshal_atomic _ _ _ rfl⟩

/-- A successful early return of the scan loop can only come from the `S`
branch of the switch. -/
theorem procChar_done_eq {parts : ParsedParts} {st : ParseState} {dur : Duration}
    {num : List Char} {c : Char} {r : Duration}
    (h : procChar parts st dur num c = Step.done r) : c = 'S' := by
  unfold procChar at h
  by_cases h1 : c = '+'
  · subst h1; simp at h; repeat' split at h
    all_goals simp_all
  rw [if_neg h1] at h
  by_cases h2 : c = '-'
  · subst h2; simp at h; repeat' split at h
    all_goals simp_all
  rw [if_neg h2] at h
  by_cases h3 : c = 'P'
  · subst h3; simp at h; repeat' split at h
    all_goals simp_all
  rw [if_neg h3] at h
  by_cases h4 : c = 'Y'
  · subst h4; simp at h; repeat' split at h
    all_goals simp_all
  rw [if_neg h4] at h
  by_cases h5 : c = 'M'
  · subst h5; simp at h; repeat' split at h
    all_goals simp_all
  rw [if_neg h5] at h
  by_cases h6 : c = 'W'
  · subst h6; simp at h; repeat' split at h
    all_goals simp_all
  rw [if_neg h6] at h
  by_cases h7 : c = 'D'
  · subst h7; simp at h; repeat' split at h
    all_goals simp_all
  rw [if_neg h7] at h
  by_cases h8 : c = 'T'
  · subst h8; simp at h; repeat' split at h
    all_goals simp_all
  rw [if_neg h8] at h
  by_cases h9 : c = 'H'
  · subst h9; simp at h; repeat' split at h
    all_goals simp_all
  rw [if_neg h9] at h
  by_cases h10 : c = 'S'
  · exact h10
  rw [if_neg h10] at h
  split at h <;> simp_all


/-- What one accepted (non-terminating) character of the scan does to the
mode and the once-only flags: the mode never leaves time mode and is
entered exactly by `T`; period tokens are rejected in time mode; each
flag is set exactly by its own designator, which requires it to have been
unset. -/
theorem procChar_next_spec {parts p' : ParsedParts} {st s' : ParseState}
    {dur d' : Duration} {num n' : List Char} {c : Char}
    (h : procChar parts st dur num c = Step.next p' s' d' n') :
    ((st = ParseState.time → s' = ParseState.time) ∧
     (c = 'T' → s' = ParseState.time) ∧
     (st = ParseState.time →
        c ≠ '+' ∧ c ≠ '-' ∧ c ≠ 'P' ∧ c ≠ 'Y' ∧ c ≠ 'W' ∧ c ≠ 'D' ∧ c ≠ 'T')) ∧
    (((c = '+' ∨ c = '-') → parts.sign = false ∧ p'.sign = true) ∧
     (¬(c = '+' ∨ c = '-') → p'.sign = parts.sign)) ∧
    ((c = 'P' → parts.p = false ∧ p'.p = true) ∧ (c ≠ 'P' → p'.p = parts.p)) ∧
    ((c = 'Y' → parts.year = false ∧ p'.year = true) ∧
     (c ≠ 'Y' → p'.year = parts.year)) ∧
    ((c = 'M' →
        p'.month.toNat + p'.minute.toNat = parts.month.toNat + parts.minute.toNat + 1 ∧
          p'.month.toNat + p'.minute.toNat ≤ 2) ∧
     (c ≠ 'M' → p'.month = parts.month ∧ p'.minute = parts.minute)) ∧
    ((c = 'W' → parts.week = false ∧ p'.week = true) ∧
     (c ≠ 'W' → p'.week = parts.week)) ∧
    ((c = 'D' → parts.day = false ∧ p'.day = true) ∧
     (c ≠ 'D' → p'.day = parts.day)) ∧
    ((c = 'T' → parts.t = false ∧ p'.t = true) ∧ (c ≠ 'T' → p'.t = parts.t)) ∧
    ((c = 'H' → parts.hour = false ∧ p'.hour = true) ∧
     (c ≠ 'H' → p'.hour = parts.hour)) := by
  unfold procChar at h
  by_cases h1 : c = '+'
  · subst h1; simp at h; repeat' split at h
    all_goals (try (injection h with e1 e2 e3 e4; subst e1; subst e2; subst e3; subst e4))
    all_goals simp_all
  rw [if_neg h1] at h
  by_cases h2 : c = '-'
  · subst h2; simp at h; repeat' split at h
    all_goals (try (injection h with e1 e2 e3 e4; subst e1; subst e2; subst e3; subst e4))
    all_goals simp_all
  rw [if_neg h2] at h
  by_cases h3 : c = 'P'
  · subst h3; simp at h; repeat' split at h
    all_goals (try (injection h with e1 e2 e3 e4; subst e1; subst e2; subst e3; subst e4))
    all_goals simp_all
  rw [if_neg h3] at h
  by_cases h4 : c = 'Y'
  · subst h4; simp at h; repeat' split at h
    all_goals (try (injection h with e1 e2 e3 e4; subst e1; subst e2; subst e3; subst e4))
    all_goals simp_all
  rw [if_neg h4] at h
  by_cases h5 : c = 'M'
  · subst h5; simp at h; repeat' split at h
    all_goals (try (injection h with e1 e2 e3 e4; subst e1; subst e2; subst e3; subst e4))
    all_goals (try simp_all)
    all_goals (cases parts.minute <;> cases parts.month <;> simp_all)
  rw [if_neg h5] at h
  by_cases h6 : c = 'W'
  · subst h6; simp at h; repeat' split at h
    all_goals (try (injection h with e1 e2 e3 e4; subst e1; subst e2; subst e3; subst e4))
    all_goals simp_all
  rw [if_neg h6] at h
  by_cases h7 : c = 'D'
  · subst h7; simp at h; repeat' split at h
    all_goals (try (injection h with e1 e2 e3 e4; subst e1; subst e2; subst e3; subst e4))
    all_goals simp_all
  rw [if_neg h7] at h
  by_cases h8 : c = 'T'
  · subst h8; simp at h; repeat' split at h
    all_goals (try (injection h with e1 e2 e3 e4; subst e1; subst e2; subst e3; subst e4))
    all_goals simp_all
  rw [if_neg h8] at h
  by_cases h9 : c = 'H'
  · subst h9; simp at h; repeat' split at h
    all_goals (try (injection h with e1 e2 e3 e4; subst e1; subst e2; subst e3; subst e4))
    all_goals simp_all
  rw [if_neg h9] at h
  by_cases h10 : c = 'S'
  · subst h10; simp at h; repeat' split at h
    all_goals (try (injection h with e1 e2 e3 e4; subst e1; subst e2; subst e3; subst e4))
    all_goals simp_all
  rw [if_neg h10] at h
  split at h
  · injection h with e1 e2 e3 e4; subst e1; subst e2; subst e3; subst e4
    simp_all
  · simp_all


/-- If the scan returned early (from the `S` branch), appending further
characters to the input changes nothing: they are never inspected. -/
theorem runParse_done_append {input extra : List Char} :
    ∀ {parts : ParsedParts} {st : ParseState} {dur : Duration} {num : List Char}
      {r : Duration},
      runParse parts st dur num input = .ok (r, true) →
      runParse parts st dur num (input ++ extra) = .ok (r, true) := by
  induction input with
  | nil =>
    intro parts st dur num r h
    simp only [runParse] at h
    split at h <;> simp_all
  | cons c rest ih =>
    intro parts st dur num r h
    simp only [runParse] at h ⊢
    cases hp : procChar parts st dur num c with
    | err m => simp [hp] at h
    | done r2 => simp only [hp] at h ⊢; exact h
    | next p2 s2 d2 n2 =>
      simp only [hp] at h ⊢
      exact ih h

/-- A scan that returned early must have consumed an `S` from its input. -/
theorem runParse_strue_hasS {input : List Char} :
    ∀ {parts : ParsedParts} {st : ParseState} {dur : Duration} {num : List Char}
      {r : Duration},
      runParse parts st dur num input = .ok (r, true) → 'S' ∈ input := by
  induction input with
  | nil =>
    intro parts st dur num r h
    simp only [runParse] at h
    split at h <;> simp_all
  | cons c rest ih =>
    intro parts st dur num r h
    simp only [runParse] at h
    cases hp : procChar parts st dur num c with
    | err m => simp [hp] at h
    | done r2 =>
      have := procChar_done_eq hp
      subst this
      exact List.mem_cons_self _ _
    | next p2 s2 d2 n2 =>
      simp only [hp] at h
      exact List.mem_cons_of_mem _ (ih h)

/-- A successful parse is the first component of a successful scan. -/
theorem parseDuration_ok {s : String} {d : Duration}
    (h : parseDuration s = .ok d) :
    ∃ b, runParse initParts ParseState.period {} [] s.data = .ok (d, b) := by
  unfold parseDuration at h
  cases hr : runParse initParts ParseState.period {} [] s.data with
  | error e => rw [hr] at h; simp [Except.map] at h
  | ok pr =>
    rw [hr] at h
    simp [Except.map] at h
    exact ⟨pr.2, by rw [← h]⟩

/-- A successful parse of a string containing no `S` ran off the end of
the input (it did not return early). -/
theorem parseDuration_ok_noS {s : String} {d : Duration}
    (h : parseDuration s = .ok d) (hS : 'S' ∉ s.data) :
    runParse initParts ParseState.period {} [] s.data = .ok (d, false) := by
  rcases parseDuration_ok h with ⟨b, hb⟩
  cases b with
  | false => exact hb
  | true => exact absurd (runParse_strue_hasS hb) hS

/-- Counting invariant of the scan: a function of the flag set that grows
by one exactly on characters satisfying `pred` and is bounded by `k`
whenever a step accepts such a character bounds the number of `pred`
characters in any fully consumed accepted input. -/
theorem runParse_countP_le (pred : Char → Bool) (f : ParsedParts → Nat) (k : Nat)
    (hstep : ∀ parts st dur num c p' s' d' n',
        procChar parts st dur num c = Step.next p' s' d' n' →
        (pred c = true → f p' = f parts + 1 ∧ f p' ≤ k) ∧
        (pred c = false → f p' = f parts)) :
    ∀ (input : List Char) (parts : ParsedParts) (st : ParseState)
      (dur : Duration) (num : List Char) (r : Duration),
      runParse parts st dur num input = .ok (r, false) → f parts ≤ k →
      input.countP pred + f parts ≤ k := by
  intro input
  induction input with
  | nil =>
    intro parts st dur num r h hf
    simpa using hf
  | cons c rest ih =>
    intro parts st dur num r h hf
    simp only [runParse] at h
    cases hp : procChar parts st dur num c with
    | err m => simp [hp] at h
    | done r2 => simp [hp] at h
    | next p2 s2 d2 n2 =>
      simp only [hp] at h
      rcases hstep _ _ _ _ _ _ _ _ _ hp with ⟨hpos, hneg⟩
      by_cases hc : pred c = true
      · rcases hpos hc with ⟨he, hle⟩
        have hrec := ih p2 s2 d2 n2 r h hle
        simp only [List.countP_cons, hc, reduceIte]
        omega
      · have hc2 : pred c = false := by simpa using hc
        have he := hneg hc2
        have hrec := ih p2 s2 d2 n2 r h (by omega)
        simp [List.countP_cons, hc2]
        omega


/-- In time mode, a fully consumed accepted input contains no sign and no
period-side designator: each of those branches rejects when the mode is
not period. -/
theorem runParse_time_countP_zero (pred : Char → Bool)
    (hpred : ∀ x, pred x = true →
        x = '+' ∨ x = '-' ∨ x = 'P' ∨ x = 'Y' ∨ x = 'W' ∨ x = 'D' ∨ x = 'T') :
    ∀ (input : List Char) (parts : ParsedParts) (dur : Duration)
      (num : List Char) (r : Duration),
      runParse parts ParseState.time dur num input = .ok (r, false) →
      input.countP pred = 0 := by
  intro input
  induction input with
  | nil => intro parts dur num r h; simp
  | cons c rest ih =>
    intro parts dur num r h
    simp only [runParse] at h
    cases hp : procChar parts ParseState.time dur num c with
    | err m => simp [hp] at h
    | done r2 => simp [hp] at h
    | next p2 s2 d2 n2 =>
      simp only [hp] at h
      rcases procChar_next_spec hp with ⟨⟨hst, _, hrestrict⟩, _⟩
      have hs2 : s2 = ParseState.time := hst rfl
      subst hs2
      have hcf : pred c = false := by
        by_contra hcc
        have hct : pred c = true := by simpa using hcc
        rcases hrestrict rfl with ⟨e1, e2, e3, e4, e5, e6, e7⟩
        rcases hpred c hct with h | h | h | h | h | h | h <;> simp_all
      have hrec := ih p2 d2 n2 r h
      simp [List.countP_cons, hcf, hrec]

/-- Once a `T` has been consumed, the rest of a fully consumed accepted
input contains no sign and no period-side designator. -/
theorem runParse_afterT_countP_zero (pred : Char → Bool)
    (hpred : ∀ x, pred x = true →
        x = '+' ∨ x = '-' ∨ x = 'P' ∨ x = 'Y' ∨ x = 'W' ∨ x = 'D' ∨ x = 'T') :
    ∀ (a : List Char) (parts : ParsedParts) (st : ParseState) (dur : Duration)
      (num : List Char) (b : List Char) (r : Duration),
      runParse parts st dur num (a ++ b) = .ok (r, false) → 'T' ∈ a →
      b.countP pred = 0 := by
  intro a
  induction a with
  | nil => intro parts st dur num b r h hT; simp at hT
  | cons c a2 ih =>
    intro parts st dur num b r h hT
    simp only [List.cons_append, runParse] at h
    cases hp : procChar parts st dur num c with
    | err m => simp [hp] at h
    | done r2 => simp [hp] at h
    | next p2 s2 d2 n2 =>
      simp only [hp] at h
      rcases List.mem_cons.mp hT with hTc | hTa
      · rcases procChar_next_spec hp with ⟨⟨_, hTstep, _⟩, _⟩
        have hs2 : s2 = ParseState.time := hTstep hTc.symm
        subst hs2
        have hz := runParse_time_countP_zero pred hpred (a2 ++ b) p2 d2 n2 r h
        rw [List.countP_append] at hz
        omega
      · exact ih p2 s2 d2 n2 b r h hTa


/-- Only sign characters satisfy `isSign`. -/
theorem isSign_spec : ∀ x, isSign x = true →
    x = '+' ∨ x = '-' ∨ x = 'P' ∨ x = 'Y' ∨ x = 'W' ∨ x = 'D' ∨ x = 'T' := by
  intro x hx
  simp [isSign] at hx
  tauto

/-- The sign-flag step fact needed by the counting invariant. -/
theorem sign_count_step :
    ∀ (parts : ParsedParts) (st : ParseState) (dur : Duration) (num : List Char)
      (c : Char) (p' : ParsedParts) (s' : ParseState) (d' : Duration) (n' : List Char),
      procChar parts st dur num c = Step.next p' s' d' n' →
      (isSign c = true → p'.sign.toNat = parts.sign.toNat + 1 ∧ p'.sign.toNat ≤ 1) ∧
        (isSign c = false → p'.sign.toNat = parts.sign.toNat) := by
  intro parts st dur num c p' s' d' n' hp
  rcases procChar_next_spec hp with ⟨_, ⟨hpos, hneg⟩, _⟩
  constructor
  · intro hc
    have hcs : c = '+' ∨ c = '-' := by
      simp [isSign] at hc
      tauto
    rcases hpos hcs with ⟨e1, e2⟩
    simp [e1, e2]
  · intro hc
    have hcs : ¬(c = '+' ∨ c = '-') := by
      simp [isSign] at hc
      tauto
    simp [hneg hcs]

/-- Claim C2, amended: a sign character is accepted at most once and only
while the scan is still in period mode (before a consumed `T`); in any
string the parser accepts without early termination (no `S`), at most one
sign occurs, and none occurs after a `T`.  (The original claim, that a
sign is accepted only as the very first character, fails on `"P-1Y"`.) -/
theorem c2_sign_once_before_T (s : String) (d : Duration)
    (h : parseDuration s = .ok d) (hS : 'S' ∉ s.data) :
    s.data.countP isSign ≤ 1 ∧
      (∀ a b : List Char, s.data = a ++ b → 'T' ∈ a → b.countP isSign = 0) := by
  have hr := parseDuration_ok_noS h hS
  constructor
  · have hb := runParse_countP_le isSign (fun p => p.sign.toNat) 1 sign_count_step
      s.data initParts ParseState.period {} [] d hr (by simp [initParts])
    simpa [initParts] using hb
  · intro a b hab hT
    rw [hab] at hr
    exact runParse_afterT_countP_zero isSign isSign_spec a initParts
      ParseState.period {} [] b d hr hT

/-- Witness for C2 (amended) at `"+P1D"`. -/
theorem c2_sign_once_before_T_witness :
    (parseDuration "+P1D" =
        .ok ⟨86400000000000, false, 0, 0, 0, 1, 0, 0, 0⟩ ∧
      'S' ∉ "+P1D".data) ∧
      "+P1D".data.countP isSign ≤ 1 :=
  ⟨⟨rfl, by decide⟩,
    (c2_sign_once_before_T "+P1D" _ rfl (by decide)).1⟩

/-- Counterexample to claim C2 as stated: in `"P-1Y"` the `-` sign occurs
at position 1, not as the very first character, yet `ParseDuration`
succeeds (with a negative one-year Duration) instead of returning an
error. -/
theorem c2_sign_anywhere_in_period :
    parseDuration "P-1Y" =
      .ok ⟨31536000000000000, true, 1, 0, 0, 0, 0, 0, 0⟩ ∧
      "P-1Y".data.get? 1 = some '-' := ⟨rfl, rfl⟩

/-- Claim C5: when the scan of `s` ends by consuming an `S` designator
(early return), any suffix appended to `s` is never inspected: the parse
of `s ++ t` succeeds with the same Duration. -/
theorem c5_S_terminates (s t : String) (d : Duration)
    (h : runParse initParts ParseState.period {} [] s.data = .ok (d, true)) :
    parseDuration s = .ok d ∧ parseDuration (s ++ t) = .ok d := by
  constructor
  · unfold parseDuration
    rw [h]
    rfl
  · unfold parseDuration
    have hd : (s ++ t).data = s.data ++ t.data := by
      rcases s with ⟨ls⟩
      rcases t with ⟨lt⟩
      rfl
    rw [hd, runParse_done_append h]
    rfl

/-- Witness for C5: `"PT1S"` parses to one second and `"PT1S" ++
"garbage!"` parses identically. -/
theorem c5_S_terminates_witness :
    runParse initParts ParseState.period {} [] "PT1S".data =
        .ok (⟨1000000000, false, 0, 0, 0, 0, 0, 0, 1⟩, true) ∧
      (parseDuration "PT1S" = .ok ⟨1000000000, false, 0, 0, 0, 0, 0, 0, 1⟩ ∧
        parseDuration ("PT1S" ++ "garbage!") =
          .ok ⟨1000000000, false, 0, 0, 0, 0, 0, 0, 1⟩) :=
  ⟨by rfl, c5_S_terminates "PT1S" "garbage!" _ (by rfl)⟩


/-- Only period-side designators satisfy `isPeriodDesignator`. -/
theorem isPeriodDesignator_spec : ∀ x, isPeriodDesignator x = true →
    x = '+' ∨ x = '-' ∨ x = 'P' ∨ x = 'Y' ∨ x = 'W' ∨ x = 'D' ∨ x = 'T' := by
  intro x hx
  simp [isPeriodDesignator] at hx
  tauto

/-- Claim C4, amended: the parser enforces only the once-per-mode flags
and the period/time mode split, not relative order inside a mode.  In any
string the parser accepts without early termination (no `S`): each of
`P`, `Y`, `W`, `D`, `T`, `H` appears at most once, `M` at most twice
(once as month, once as minute), and no period-side designator appears
after a `T`.  Relative order of the fields inside the period part is not
checked: a day field may precede a year field, as in `"P1D1Y"`. -/
theorem c4_flags_not_order (s : String) (d : Duration)
    (h : parseDuration s = .ok d) (hS : 'S' ∉ s.data) :
    (s.data.countP (fun c => c == 'P') ≤ 1 ∧
      s.data.countP (fun c => c == 'Y') ≤ 1 ∧
      s.data.countP (fun c => c == 'M') ≤ 2 ∧
      s.data.countP (fun c => c == 'W') ≤ 1 ∧
      s.data.countP (fun c => c == 'D') ≤ 1 ∧
      s.data.countP (fun c => c == 'T') ≤ 1 ∧
      s.data.countP (fun c => c == 'H') ≤ 1) ∧
      (∀ a b : List Char, s.data = a ++ b → 'T' ∈ a →
        b.countP isPeriodDesignator = 0) := by
  have hr := parseDuration_ok_noS h hS
  constructor
  · refine ⟨?_, ?_, ?_, ?_, ?_, ?_, ?_⟩
    · have hb := runParse_countP_le (fun c => c == 'P') (fun p => p.p.toNat) 1
        ?stepP s.data initParts ParseState.period {} [] d hr (by simp [initParts])
      · simpa [initParts] using hb
      case stepP =>
        intro parts st dur num c p' s' d' n' hp
        rcases procChar_next_spec hp with ⟨_, _, ⟨hpos, hneg⟩, _⟩
        constructor
        · intro hc
          have hce : c = 'P' := by simpa using hc
          rcases hpos hce with ⟨e1, e2⟩
          simp [e1, e2]
        · intro hc
          have hce : c ≠ 'P' := by simpa using hc
          simp [hneg hce]
    · have hb := runParse_countP_le (fun c => c == 'Y') (fun p => p.year.toNat) 1
        ?stepY s.data initParts ParseState.period {} [] d hr (by simp [initParts])
      · simpa [initParts] using hb
      case stepY =>
        intro parts st dur num c p' s' d' n' hp
        rcases procChar_next_spec hp with ⟨_, _, _, ⟨hpos, hneg⟩, _⟩
        constructor
        · intro hc
          have hce : c = 'Y' := by simpa using hc
          rcases hpos hce with ⟨e1, e2⟩
          simp [e1, e2]
        · intro hc
          have hce : c ≠ 'Y' := by simpa using hc
          simp [hneg hce]
    · have hb := runParse_countP_le (fun c => c == 'M')
        (fun p => p.month.toNat + p.minute.toNat) 2
        ?stepM s.data initParts ParseState.period {} [] d hr (by simp [initParts])
      · simpa [initParts] using hb
      case stepM =>
        intro parts st dur num c p' s' d' n' hp
        rcases procChar_next_spec hp with ⟨_, _, _, _, ⟨hpos, hneg⟩, _⟩
        constructor
        · intro hc
          have hce : c = 'M' := by simpa using hc
          exact hpos hce
        · intro hc
          have hce : c ≠ 'M' := by simpa using hc
          rcases hneg hce with ⟨e1, e2⟩
          simp [e1, e2]
    · have hb := runParse_countP_le (fun c => c == 'W') (fun p => p.week.toNat) 1
        ?stepW s.data initParts ParseState.period {} [] d hr (by simp [initParts])
      · simpa [initParts] using hb
      case stepW =>
        intro parts st dur num c p' s' d' n' hp
        rcases procChar_next_spec hp with ⟨_, _, _, _, _, ⟨hpos, hneg⟩, _⟩
        constructor
        · intro hc
          have hce : c = 'W' := by simpa using hc
          rcases hpos hce with ⟨e1, e2⟩
          simp [e1, e2]
        · intro hc
          have hce : c ≠ 'W' := by simpa using hc
          simp [hneg hce]
    · have hb := runParse_countP_le (fun c => c == 'D') (fun p => p.day.toNat) 1
        ?stepD s.data initParts ParseState.period {} [] d hr (by simp [initParts])
      · simpa [initParts] using hb
      case stepD =>
        intro parts st dur num c p' s' d' n' hp
        rcases procChar_next_spec hp with ⟨_, _, _, _, _, _, ⟨hpos, hneg⟩, _⟩
        constructor
        · intro hc
          have hce : c = 'D' := by simpa using hc
          rcases hpos hce with ⟨e1, e2⟩
          simp [e1, e2]
        · intro hc
          have hce : c ≠ 'D' := by simpa using hc
          simp [hneg hce]
    · have hb := runParse_countP_le (fun c => c == 'T') (fun p => p.t.toNat) 1
        ?stepT s.data initParts ParseState.period {} [] d hr (by simp [initParts])
      · simpa [initParts] using hb
      case stepT =>
        intro parts st dur num c p' s' d' n' hp
        rcases procChar_next_spec hp with ⟨_, _, _, _, _, _, _, ⟨hpos, hneg⟩, _⟩
        constructor
        · intro hc
          have hce : c = 'T' := by simpa using hc
          rcases hpos hce with ⟨e1, e2⟩
          simp [e1, e2]
        · intro hc
          have hce : c ≠ 'T' := by simpa using hc
          simp [hneg hce]
    · have hb := runParse_countP_le (fun c => c == 'H') (fun p => p.hour.toNat) 1
        ?stepH s.data initParts ParseState.period {} [] d hr (by simp [initParts])
      · simpa [initParts] using hb
      case stepH =>
        intro parts st dur num c p' s' d' n' hp
        rcases procChar_next_spec hp with ⟨_, _, _, _, _, _, _, _, ⟨hpos, hneg⟩⟩
        constructor
        · intro hc
          have hce : c = 'H' := by simpa using hc
          rcases hpos hce with ⟨e1, e2⟩
          simp [e1, e2]
        · intro hc
          have hce : c ≠ 'H' := by simpa using hc
          simp [hneg hce]
  · intro a b hab hT
    rw [hab] at hr
    exact runParse_afterT_countP_zero isPeriodDesignator isPeriodDesignator_spec
      a initParts ParseState.period {} [] b d hr hT

/-- Witness for C4 (amended) at `"P2WT4H"`. -/
theorem c4_flags_not_order_witness :
    (parseDuration "P2WT4H" =
        .ok ⟨1224000000000000, false, 0, 0, 2, 0, 4, 0, 0⟩ ∧
      'S' ∉ "P2WT4H".data) ∧
      ("P2WT4H".data.countP (fun c => c == 'P') ≤ 1 ∧
        "P2WT4H".data.countP (fun c => c == 'Y') ≤ 1 ∧
        "P2WT4H".data.countP (fun c => c == 'M') ≤ 2 ∧
        "P2WT4H".data.countP (fun c => c == 'W') ≤ 1 ∧
        "P2WT4H".data.countP (fun c => c == 'D') ≤ 1 ∧
        "P2WT4H".data.countP (fun c => c == 'T') ≤ 1 ∧
        "P2WT4H".data.countP (fun c => c == 'H') ≤ 1) :=
  ⟨⟨rfl, by decide⟩, (c4_flags_not_order "P2WT4H" _ rfl (by decide)).1⟩

/-- Counterexample to claim C4 as stated: in `"P1D1Y"` the day field
precedes the year field, yet `ParseDuration` succeeds (with one day plus
one year) instead of returning an "unexpected" error. -/
theorem c4_order_not_enforced :
    parseDuration "P1D1Y" =
      .ok ⟨31622400000000000, false, 1, 0, 0, 1, 0, 0, 0⟩ := rfl


/-- `parseInt64` on a digits-and-dots buffer returns a non-negative value
(the buffer cannot begin with a minus sign). -/
theorem parseInt64_nonneg {s : List Char} {v : Int}
    (hbuf : bufOK s) (h : parseInt64 s = .ok v) : 0 ≤ v := by
  cases s with
  | nil => simp [parseInt64] at h
  | cons x t =>
    have hx := hbuf x (List.mem_cons_self x t)
    have hx1 : x ≠ '+' := by
      rcases hx with hx | hx
      · intro he; subst he; simp at hx
      · intro he; subst he; simp at hx
    have hx2 : x ≠ '-' := by
      rcases hx with hx | hx
      · intro he; subst he; simp at hx
      · intro he; subst he; simp at hx
    unfold parseInt64 at h
    have hsign : ¬((some x == some '-') = true) := by simp [hx2]
    simp only [List.head?_cons, Option.some.injEq, hx1, hx2, or_self, if_false,
      if_neg hsign] at h
    repeat' split at h
    all_goals first
      | (rcases h with ⟨⟩; positivity)
      | simp at h

/-- `parseFloatQ` on a digits-and-dots buffer returns a non-negative
value. -/
theorem parseFloatQ_nonneg {s : List Char} {q : ℚ}
    (hbuf : bufOK s) (h : parseFloatQ s = .ok q) : 0 ≤ q := by
  cases s with
  | nil => simp [parseFloatQ] at h
  | cons x t =>
    have hx := hbuf x (List.mem_cons_self x t)
    have hx1 : x ≠ '+' := by
      rcases hx with hx | hx
      · intro he; subst he; simp at hx
      · intro he; subst he; simp at hx
    have hx2 : x ≠ '-' := by
      rcases hx with hx | hx
      · intro he; subst he; simp at hx
      · intro he; subst he; simp at hx
    unfold parseFloatQ at h
    have hsign : ¬((some x == some '-') = true) := by simp [hx2]
    simp only [List.head?_cons, Option.some.injEq, hx1, hx2, or_self, if_false,
      if_neg hsign] at h
    repeat' split at h
    all_goals first
      | (rcases h with ⟨⟩; positivity)
      | simp at h


/-- One accepted scan character preserves non-negativity of the
components and well-formedness of the buffer. -/
theorem procChar_comps_next {parts p' : ParsedParts} {st s' : ParseState}
    {dur d' : Duration} {num n' : List Char} {c : Char}
    (h : procChar parts st dur num c = Step.next p' s' d' n')
    (hcomps : compsNonneg dur) (hbuf : bufOK num) :
    compsNonneg d' ∧ bufOK n' := by
  obtain ⟨hy, hmo, hw, hd2, hh, hmi, hs⟩ := hcomps
  unfold procChar at h
  by_cases h1 : c = '+'
  · subst h1; simp at h
    split at h
    · simp at h
    · injection h with e1 e2 e3 e4
      subst e1; subst e2; subst e3; subst e4
      exact ⟨⟨hy, hmo, hw, hd2, hh, hmi, hs⟩, hbuf⟩
  rw [if_neg h1] at h
  by_cases h2 : c = '-'
  · subst h2; simp at h
    split at h
    · simp at h
    · injection h with e1 e2 e3 e4
      subst e1; subst e2; subst e3; subst e4
      exact ⟨⟨hy, hmo, hw, hd2, hh, hmi, hs⟩, hbuf⟩
  rw [if_neg h2] at h
  by_cases h3 : c = 'P'
  · subst h3; simp at h
    split at h
    · simp at h
    · injection h with e1 e2 e3 e4
      subst e1; subst e2; subst e3; subst e4
      exact ⟨⟨hy, hmo, hw, hd2, hh, hmi, hs⟩, hbuf⟩
  rw [if_neg h3] at h
  by_cases h4 : c = 'Y'
  · subst h4; simp at h
    split at h
    · simp at h
    · cases hpi : parseInt64 num with
      | error e => simp [hpi] at h
      | ok v =>
        simp only [hpi] at h
        injection h with e1 e2 e3 e4
        subst e1; subst e2; subst e3; subst e4
        have hv := parseInt64_nonneg hbuf hpi
        exact ⟨⟨hv, hmo, hw, hd2, hh, hmi, hs⟩, by intro z hz; simp at hz⟩
  rw [if_neg h4] at h
  by_cases h5 : c = 'M'
  · subst h5; simp at h
    split at h
    · split at h
      · simp at h
      · cases hpi : parseInt64 num with
        | error e => simp [hpi] at h
        | ok v =>
          simp only [hpi] at h
          injection h with e1 e2 e3 e4
          subst e1; subst e2; subst e3; subst e4
          have hv := parseInt64_nonneg hbuf hpi
          exact ⟨⟨hy, hv, hw, hd2, hh, hmi, hs⟩, by intro z hz; simp at hz⟩
    · split at h
      · simp at h
      · cases hpi : parseInt64 num with
        | error e => simp [hpi] at h
        | ok v =>
          simp only [hpi] at h
          injection h with e1 e2 e3 e4
          subst e1; subst e2; subst e3; subst e4
          have hv := parseInt64_nonneg hbuf hpi
          exact ⟨⟨hy, hmo, hw, hd2, hh, hv, hs⟩, by intro z hz; simp at hz⟩
  rw [if_neg h5] at h
  by_cases h6 : c = 'W'
  · subst h6; simp at h
    split at h
    · simp at h
    · cases hpi : parseInt64 num with
      | error e => simp [hpi] at h
      | ok v =>
        simp only [hpi] at h
        injection h with e1 e2 e3 e4
        subst e1; subst e2; subst e3; subst e4
        have hv := parseInt64_nonneg hbuf hpi
        exact ⟨⟨hy, hmo, hv, hd2, hh, hmi, hs⟩, by intro z hz; simp at hz⟩
  rw [if_neg h6] at h
  by_cases h7 : c = 'D'
  · subst h7; simp at h
    split at h
    · simp at h
    · cases hpi : parseInt64 num with
      | error e => simp [hpi] at h
      | ok v =>
        simp only [hpi] at h
        injection h with e1 e2 e3 e4
        subst e1; subst e2; subst e3; subst e4
        have hv := parseInt64_nonneg hbuf hpi
        exact ⟨⟨hy, hmo, hw, hv, hh, hmi, hs⟩, by intro z hz; simp at hz⟩
  rw [if_neg h7] at h
  by_cases h8 : c = 'T'
  · subst h8; simp at h
    split at h
    · simp at h
    · injection h with e1 e2 e3 e4
      subst e1; subst e2; subst e3; subst e4
      exact ⟨⟨hy, hmo, hw, hd2, hh, hmi, hs⟩, hbuf⟩
  rw [if_neg h8] at h
  by_cases h9 : c = 'H'
  · subst h9; simp at h
    split at h
    · simp at h
    · cases hpi : parseInt64 num with
      | error e => simp [hpi] at h
      | ok v =>
        simp only [hpi] at h
        injection h with e1 e2 e3 e4
        subst e1; subst e2; subst e3; subst e4
        have hv := parseInt64_nonneg hbuf hpi
        exact ⟨⟨hy, hmo, hw, hd2, hv, hmi, hs⟩, by intro z hz; simp at hz⟩
  rw [if_neg h9] at h
  by_cases h10 : c = 'S'
  · subst h10; simp at h
    repeat' split at h
    all_goals simp_all
  rw [if_neg h10] at h
  split at h
  · rename_i hdig
    injection h with e1 e2 e3 e4
    subst e1; subst e2; subst e3; subst e4
    refine ⟨⟨hy, hmo, hw, hd2, hh, hmi, hs⟩, ?_⟩
    intro z hz
    rcases List.mem_append.mp hz with hz2 | hz2
    · exact hbuf z hz2
    · have : z = c := by simpa using hz2
      subst this
      rcases hdig with hdig | hdig
      · exact Or.inl hdig
      · exact Or.inr hdig
  · simp at h

/-- The early `S` return preserves non-negativity of the components: the
parsed seconds value comes from a digits-and-dots buffer. -/
theorem procChar_comps_done {parts : ParsedParts} {st : ParseState}
    {dur r : Duration} {num : List Char} {c : Char}
    (h : procChar parts st dur num c = Step.done r)
    (hcomps : compsNonneg dur) (hbuf : bufOK num) : compsNonneg r := by
  obtain ⟨hy, hmo, hw, hd2, hh, hmi, hs⟩ := hcomps
  have hc := procChar_done_eq h
  subst hc
  unfold procChar at h
  simp at h
  split at h
  · simp at h
  · cases hpf : parseFloatQ num with
    | error e => simp [hpf] at h
    | ok qv =>
      simp only [hpf] at h
      injection h with e1
      subst e1
      have hq := parseFloatQ_nonneg hbuf hpf
      exact ⟨hy, hmo, hw, hd2, hh, hmi, hq⟩

/-- A successful scan from a well-formed state yields non-negative
components. -/
theorem runParse_comps {input : List Char} :
    ∀ {parts : ParsedParts} {st : ParseState} {dur : Duration}
      {num : List Char} {r : Duration} {b : Bool},
      runParse parts st dur num input = .ok (r, b) →
      compsNonneg dur → bufOK num → compsNonneg r := by
  induction input with
  | nil =>
    intro parts st dur num r b h hcomps hbuf
    simp only [runParse] at h
    split at h
    · rcases h with ⟨⟩
      exact hcomps
    · simp at h
  | cons c rest ih =>
    intro parts st dur num r b h hcomps hbuf
    simp only [runParse] at h
    cases hp : procChar parts st dur num c with
    | err m => simp [hp] at h
    | done r2 =>
      simp [hp] at h
      rcases h with ⟨he, _⟩
      subst he
      exact procChar_comps_done hp hcomps hbuf
    | next p2 s2 d2 n2 =>
      simp only [hp] at h
      obtain ⟨hc2, hb2⟩ := procChar_comps_next hp hcomps hbuf
      exact ih h hc2 hb2


/-- The greedy subtraction loop keeps count and remainder non-negative. -/
theorem chomp_nonneg (d unit : Int) (hd : 0 ≤ d) (hu : 0 < unit) :
    0 ≤ (chomp d unit).1 ∧ 0 ≤ (chomp d unit).2 := by
  unfold chomp
  split
  · exact ⟨Int.ediv_nonneg hd (le_of_lt hu), Int.emod_nonneg d (ne_of_gt hu)⟩
  · exact ⟨le_refl 0, hd⟩

/-- The decomposition of a non-zero input, written out. -/
theorem FromTimeDuration_eq {n : Int} (h : n ≠ 0) :
    FromTimeDuration n =
      { d := if n < 0 then i64neg n else n,
        negative := decide (n < 0),
        years := (chomp (if n < 0 then i64neg n else n) periodYear).1,
        months := (chomp (chomp (if n < 0 then i64neg n else n) periodYear).2
          periodMonth).1,
        weeks := (chomp (chomp (chomp (if n < 0 then i64neg n else n)
          periodYear).2 periodMonth).2 periodWeek).1,
        days := (chomp (chomp (chomp (chomp (if n < 0 then i64neg n else n)
          periodYear).2 periodMonth).2 periodWeek).2 periodDay).1,
        hours := (chomp (chomp (chomp (chomp (chomp
          (if n < 0 then i64neg n else n)
          periodYear).2 periodMonth).2 periodWeek).2 periodDay).2 nsPerHour).1,
        minutes := (chomp (chomp (chomp (chomp (chomp (chomp
          (if n < 0 then i64neg n else n)
          periodYear).2 periodMonth).2 periodWeek).2 periodDay).2 nsPerHour).2
          nsPerMinute).1,
        seconds := goSeconds (chomp (chomp (chomp (chomp (chomp (chomp
          (if n < 0 then i64neg n else n)
          periodYear).2 periodMonth).2 periodWeek).2 periodDay).2 nsPerHour).2
          nsPerMinute).2 } := by
  simp [FromTimeDuration, h]

/-- Claim C6, amended: every Duration produced by `ParseDuration` has
non-negative components, and so does every Duration produced by
`FromTimeDuration` for any int64 input except `math.MinInt64`, whose
`seconds` component is negative: negating the most negative int64 wraps
back onto itself. -/
theorem c6_components_nonneg :
    (∀ n : Int, -(2 ^ 63) < n → n < 2 ^ 63 →
        compsNonneg (FromTimeDuration n)) ∧
      (∀ (s : String) (d : Duration), parseDuration s = .ok d →
        compsNonneg d) := by
  constructor
  · intro n hlo hhi
    by_cases h0 : n = 0
    · subst h0
      exact ⟨le_refl 0, le_refl 0, le_refl 0, le_refl 0, le_refl 0, le_refl 0,
        le_refl 0⟩
    · rw [FromTimeDuration_eq h0]
      have hm : 0 ≤ if n < 0 then i64neg n else n := by
        split
        · rename_i hneg
          have he : i64neg n = -n := by
            unfold i64neg
            exact wrap64_eq_self (by linarith) (by linarith)
          rw [he]
          linarith
        · rename_i hpos
          linarith [not_lt.mp hpos]
      have hY := chomp_nonneg _ periodYear hm (by norm_num [periodYear])
      have hMo := chomp_nonneg _ periodMonth hY.2 (by norm_num [periodMonth])
      have hW := chomp_nonneg _ periodWeek hMo.2 (by norm_num [periodWeek])
      have hD := chomp_nonneg _ periodDay hW.2 (by norm_num [periodDay])
      have hH := chomp_nonneg _ nsPerHour hD.2 (by norm_num [nsPerHour])
      have hMi := chomp_nonneg _ nsPerMinute hH.2 (by norm_num [nsPerMinute])
      have hSec : (0 : ℚ) ≤ goSeconds (chomp (chomp (chomp (chomp (chomp (chomp
          (if n < 0 then i64neg n else n)
          periodYear).2 periodMonth).2 periodWeek).2 periodDay).2 nsPerHour).2
          nsPerMinute).2 := by
        unfold goSeconds
        have := hMi.2
        positivity
      exact ⟨hY.1, hMo.1, hW.1, hD.1, hH.1, hMi.1, hSec⟩
  · intro s d h
    rcases parseDuration_ok h with ⟨b, hb⟩
    exact runParse_comps hb
      ⟨le_refl 0, le_refl 0, le_refl 0, le_refl 0, le_refl 0, le_refl 0,
        le_refl 0⟩
      (by intro z hz; simp at hz)

/-- Witness for C6 (amended) at `n = 5` and the parse of `"P1D"`. -/
theorem c6_components_nonneg_witness :
    ((-(2 ^ 63) < (5 : Int) ∧ (5 : Int) < 2 ^ 63) ∧
        compsNonneg (FromTimeDuration 5)) ∧
      (parseDuration "P1D" = .ok ⟨86400000000000, false, 0, 0, 0, 1, 0, 0, 0⟩ ∧
        compsNonneg ⟨86400000000000, false, 0, 0, 0, 1, 0, 0, 0⟩) :=
  ⟨⟨⟨by norm_num, by norm_num⟩,
      c6_components_nonneg.1 5 (by norm_num) (by norm_num)⟩,
    ⟨rfl, c6_components_nonneg.2 "P1D" _ rfl⟩⟩


end Durago
